import Mathlib

/-
Verification of the clouway/go-genproto transport helpers:
  - clouwayapis/rpc/httpkit/errors.go  (ErrorEncoder, httpStatusFromCode, HttpError)
  - clouwayapis/rpc/grpckit/grpc.go    (MetadataToContext)

Shallow embedding conventions used throughout:
  - Go byte slices holding JSON are modelled as Lean Strings.
  - Fallible Go calls returning (bytes, error) are modelled as Option String,
    where none stands for a non-nil error (the Go code discards such errors
    with a blank identifier, leaving a nil body, modelled as "").
  - A Go panic is modelled by an Option-valued result being none.
  - Go maps iterated with range are modelled as association lists; the list
    order plays the role of the (unspecified) map iteration order.
-/

namespace GoGenproto

/-- Closed enumeration of gRPC outcome codes (google.golang.org/grpc/codes).
The numeric values below are the public constants of that package
(codes.Code is a uint32): OK=0 .. DataLoss=15, Unauthenticated=16. -/
inductive StatusCode where
  | ok
  | canceled
  | unknown
  | invalidArgument
  | deadlineExceeded
  | notFound
  | alreadyExists
  | permissionDenied
  | unauthenticated
  | resourceExhausted
  | failedPrecondition
  | aborted
  | outOfRange
  | unimplemented
  | internal
  | unavailable
  | dataLoss
deriving DecidableEq, Fintype, Repr

/-- Numeric value of each codes.Code constant, as declared in
google.golang.org/grpc/codes. -/
def StatusCode.num : StatusCode → Nat
  | .ok => 0
  | .canceled => 1
  | .unknown => 2
  | .invalidArgument => 3
  | .deadlineExceeded => 4
  | .notFound => 5
  | .alreadyExists => 6
  | .permissionDenied => 7
  | .resourceExhausted => 8
  | .failedPrecondition => 9
  | .aborted => 10
  | .outOfRange => 11
  | .unimplemented => 12
  | .internal => 13
  | .unavailable => 14
  | .dataLoss => 15
  | .unauthenticated => 16

/-- Translation of httpStatusFromCode (errors.go lines 130-171).
The Go switch matches on the named codes.Code constants; here the match is
on their numeric values (codes.Code is a uint32, embedded as Nat).
Every unmatched code falls through to 500. -/
def httpStatusFromCode (code : Nat) : Int :=
  match code with
  | 0 => 200
  | 1 => 408
  | 2 => 500
  | 3 => 400
  | 4 => 504
  | 5 => 404
  | 6 => 409
  | 7 => 403
  | 16 => 401
  | 8 => 429
  | 9 => 400
  | 10 => 409
  | 11 => 400
  | 12 => 501
  | 13 => 500
  | 14 => 503
  | 15 => 500
  | _ => 500

/-- HTTP status claimed by the spec table for each enumeration constant. -/
def specTableStatus : StatusCode → Int
  | .ok => 200
  | .canceled => 408
  | .unknown => 500
  | .invalidArgument => 400
  | .deadlineExceeded => 504
  | .notFound => 404
  | .alreadyExists => 409
  | .permissionDenied => 403
  | .unauthenticated => 401
  | .resourceExhausted => 429
  | .failedPrecondition => 400
  | .aborted => 409
  | .outOfRange => 400
  | .unimplemented => 501
  | .internal => 500
  | .unavailable => 503
  | .dataLoss => 500

/-- C1: for every StatusCode in the closed enumeration, httpStatusFromCode
returns exactly the HTTP status of the spec table, and every code value
outside the enumeration (the enumeration occupies exactly 0..16) maps
to 500. The function is a pure total Lean function of the code value alone. -/
theorem c1_httpStatusFromCode_matches_table :
    (∀ c : StatusCode, httpStatusFromCode c.num = specTableStatus c) ∧
    (∀ n : Nat, (∀ c : StatusCode, c.num ≠ n) → httpStatusFromCode n = 500) := by
  constructor
  · decide
  · intro n h
    have h17 : 16 < n := by
      by_contra hle
      push_neg at hle
      interval_cases n <;> exact absurd h (by decide)
    obtain ⟨m, rfl⟩ : ∃ m, n = m + 17 := ⟨n - 17, by omega⟩
    rfl

/-- Witness for C1 at the concrete out-of-enumeration code 999. -/
theorem c1_witness :
    (∀ c : StatusCode, c.num ≠ 999) ∧ httpStatusFromCode 999 = 500 :=
  ⟨by decide, c1_httpStatusFromCode_matches_table.2 999 (by decide)⟩

/-- Constant JSONContentType of errors.go. -/
def JSONContentType : String := "application/json; charset=utf-8"

/-- Lowercase hex digit, used for JSON control-character escapes. -/
def hexDigit (n : Nat) : String :=
  (["0", "1", "2", "3", "4", "5", "6", "7", "8", "9", "a", "b", "c", "d", "e", "f"]).getD n "0"

/-- Escaping of a single character as performed by Go encoding/json for
string values (HTML-safe escaping of the default encoder). -/
def jsonEscapeChar (c : Char) : String :=
  if c = Char.ofNat 34 then "\\\"" else
  if c = Char.ofNat 92 then "\\\\" else
  if c = Char.ofNat 10 then "\\n" else
  if c = Char.ofNat 13 then "\\r" else
  if c = Char.ofNat 9 then "\\t" else
  if c = Char.ofNat 60 then "\\u003c" else
  if c = Char.ofNat 62 then "\\u003e" else
  if c = Char.ofNat 38 then "\\u0026" else
  if c.toNat < 32 then "\\u00" ++ hexDigit (c.toNat / 16) ++ hexDigit (c.toNat % 16) else
  String.singleton c

/-- JSON string literal for s, as produced by Go encoding/json. -/
def jsonQuote (s : String) : String :=
  "\"" ++ String.join (s.toList.map jsonEscapeChar) ++ "\""

/-- Translation of json.Marshal applied to errorWrapper (errors.go lines
74-76): the struct has the single tagged field message, so the encoding is
the object with that one member. Marshaling a struct of one string field
cannot fail in Go, so this is total. -/
def jsonMarshalErrorWrapper (msg : String) : String :=
  "\x7b\"message\":" ++ jsonQuote msg ++ "\x7d"

/-- Valid header-field byte of Go net/textproto (token characters:
alphanumerics and the specials of isTokenTable). -/
def isTokenChar (c : Char) : Bool :=
  c.isAlphanum || c = Char.ofNat 33 || c = Char.ofNat 35 || c = Char.ofNat 36 ||
  c = Char.ofNat 37 || c = Char.ofNat 38 || c = Char.ofNat 39 || c = Char.ofNat 42 ||
  c = Char.ofNat 43 || c = Char.ofNat 45 || c = Char.ofNat 46 || c = Char.ofNat 94 ||
  c = Char.ofNat 95 || c = Char.ofNat 96 || c = Char.ofNat 124 || c = Char.ofNat 126

/-- Accumulator step of canonicalMIMEHeaderKey: uppercase the first letter
and every letter following a hyphen, lowercase the rest. -/
def canonicalStep (st : Bool × String) (c : Char) : Bool × String :=
  ((c = Char.ofNat 45), st.2.push (if st.1 then c.toUpper else c.toLower))

/-- Translation of Go net/textproto CanonicalMIMEHeaderKey, used by
http.Header.Set and http.Header.Get: keys containing a non-token byte are
returned unchanged, otherwise the canonical capitalization is produced. -/
def canonicalMIMEHeaderKey (s : String) : String :=
  if s.toList.all isTokenChar then (s.toList.foldl canonicalStep (true, "")).2 else s

/-- Response-side header store. Only http.Header.Set is ever applied to the
ResponseWriter's headers in errors.go, so each canonical key holds a single
value. -/
def headerSet (hs : List (String × String)) (k v : String) : List (String × String) :=
  let ck := canonicalMIMEHeaderKey k
  if hs.any (fun p => p.1 = ck) then
    hs.map (fun p => if p.1 = ck then (ck, v) else p)
  else hs ++ [(ck, v)]

/-- Lookup in the response-side header store, canonicalizing the key as
http.Header.Get does. -/
def headerGet (hs : List (String × String)) (k : String) : Option String :=
  (hs.find? (fun p => p.1 = canonicalMIMEHeaderKey k)).map (fun p => p.2)

/-- Translation of http.Header.Get on the error's own header map (the map
returned by Headerer.Headers, whose stored keys are raw): the argument key
is canonicalized, looked up directly among the stored keys, and the first
value is returned, or the empty string when the key is absent or its value
list is empty. -/
def errHeadersGet (hm : List (String × List String)) (k : String) : String :=
  match hm.find? (fun p => p.1 = canonicalMIMEHeaderKey k) with
  | some (_, v :: _) => v
  | _ => ""

/-- One structured detail payload of a grpc status. Per the collaborator
contract of the spec, Details() yields structured payloads, each convertible
to JSON; marshalProtoNames is the outcome of
protojson.MarshalOptions(UseProtoNames: true).Marshal on it, with none
standing for a marshaling failure. -/
structure ProtoDetail where
  marshalProtoNames : Option String
deriving DecidableEq, Repr

/-- The grpc status carried by an error recognized by status.FromError:
a code (codes.Code, a uint32, embedded as Nat), a message, and the detail
payloads. -/
structure GrpcStatus where
  code : Nat
  message : String
  details : List ProtoDetail
deriving DecidableEq, Repr

/-- A Go error value as ErrorEncoder sees it: the Error() string plus the
four optional capabilities discovered by type assertion.
headerer: the http.Header returned by Headers() when the error implements
httptransport.Headerer (raw keys, ordered value lists).
statusCoder: the int returned by StatusCode() when the error implements
httptransport.StatusCoder.
grpcStatus: the status recognized by status.FromError when the error
implements the grpc status abstraction.
jsonMarshaler: present when the error implements json.Marshaler; the inner
Option String is the MarshalJSON outcome, none standing for a failure
(whose body bytes are nil). -/
structure GoErr where
  errMsg : String
  headerer : Option (List (String × List String))
  statusCoder : Option Int
  grpcStatus : Option GrpcStatus
  jsonMarshaler : Option (Option String)
deriving DecidableEq, Repr

/-- The single HTTP response written to the ResponseWriter: accumulated
headers, the status passed to WriteHeader, and the body passed to Write. -/
structure Response where
  headers : List (String × String)
  status : Int
  body : String
deriving DecidableEq, Repr

/-- Translation of ErrorEncoder (errors.go lines 37-71), statement by
statement: set Content-Type; copy each Headerer key via Set/Get; start from
status 500, overridden by StatusCoder; then the grpc-status branch (mapped
status, body from the first detail or the message wrapper), else the
json.Marshaler branch, else the default wrapper with the redundant
re-assertion of json.Marshaler kept as in the source. Discarded marshal
errors leave the body bytes nil, modelled as the empty string. -/
def ErrorEncoder (err : GoErr) : Response :=
  let hs := headerSet [] "Content-Type" JSONContentType
  let hs :=
    match err.headerer with
    | some hm => hm.foldl (fun r p => headerSet r p.1 (errHeadersGet hm p.1)) hs
    | none => hs
  let code : Int := 500
  let code :=
    match err.statusCoder with
    | some sc => sc
    | none => code
  match err.grpcStatus with
  | some st =>
    let code := httpStatusFromCode st.code
    let body :=
      match st.details with
      | d :: _ =>
        match d.marshalProtoNames with
        | some j => j
        | none => ""
      | [] => jsonMarshalErrorWrapper st.message
    ⟨hs, code, body⟩
  | none =>
    match err.jsonMarshaler with
    | some res =>
      let body :=
        match res with
        | some j => j
        | none => ""
      ⟨hs, code, body⟩
    | none =>
      let body := jsonMarshalErrorWrapper err.errMsg
      let body :=
        match err.jsonMarshaler with
        | some res =>
          match res with
          | some j => j
          | none => body
        | none => body
      ⟨hs, code, body⟩

/-- Simplified variant of ErrorEncoder whose final default branch consists
only of marshaling the message wrapper, without the nested json.Marshaler
re-check. Stated from the description of the refinement claim, to be proved
extensionally equal to ErrorEncoder. -/
def ErrorEncoderSimplified (err : GoErr) : Response :=
  let hs := headerSet [] "Content-Type" JSONContentType
  let hs :=
    match err.headerer with
    | some hm => hm.foldl (fun r p => headerSet r p.1 (errHeadersGet hm p.1)) hs
    | none => hs
  let code : Int := 500
  let code :=
    match err.statusCoder with
    | some sc => sc
    | none => code
  match err.grpcStatus with
  | some st =>
    let code := httpStatusFromCode st.code
    let body :=
      match st.details with
      | d :: _ =>
        match d.marshalProtoNames with
        | some j => j
        | none => ""
      | [] => jsonMarshalErrorWrapper st.message
    ⟨hs, code, body⟩
  | none =>
    match err.jsonMarshaler with
    | some res =>
      let body :=
        match res with
        | some j => j
        | none => ""
      ⟨hs, code, body⟩
    | none =>
      ⟨hs, code, jsonMarshalErrorWrapper err.errMsg⟩

/-- Translation of the HttpError struct (errors.go lines 85-99): the user
supplied status, the raw header map (the empty list standing for a nil
map), and the payload, represented by the outcome of json.Marshal on it
(none standing for a marshaling failure). -/
structure HttpError where
  status : Int
  headers : List (String × List String)
  payloadJSON : Option String
deriving DecidableEq, Repr

/-- Translation of NewHttpError (errors.go lines 104-110). -/
def NewHttpError (code : Int) (payloadJSON : Option String)
    (headers : List (String × List String)) : HttpError :=
  ⟨code, headers, payloadJSON⟩

/-- Translation of the Error method of HttpError. -/
def HttpError.Error (_ : HttpError) : String := "HttpError"

/-- Translation of the StatusCode method of HttpError. -/
def HttpError.StatusCode (h : HttpError) : Int := h.status

/-- Translation of the Headers method of HttpError. -/
def HttpError.Headers (h : HttpError) : List (String × List String) := h.headers

/-- Translation of the MarshalJSON method of HttpError: json.Marshal of the
payload, here the stored marshal outcome. -/
def HttpError.MarshalJSON (h : HttpError) : Option String := h.payloadJSON

/-- The GoErr capability view of an HttpError: it implements Headerer,
StatusCoder and json.Marshaler, but not the grpc status abstraction. -/
def HttpError.toGoErr (h : HttpError) : GoErr :=
  ⟨h.Error, some h.Headers, some h.StatusCode, none, some h.MarshalJSON⟩

/-- Translation of MetadataToContext (grpc.go lines 12-21). The context is
an association list of entries added by context.WithValue, most recent
first; the metadata is an association list whose values model Go slices:
none is a nil slice, some l a non-nil slice with elements l. The Go loop
guards the indexing of v with a nil check only, so a non-nil empty value
list reaches the expression v[0] and panics with an index-out-of-range
runtime error; the panic is modelled by the result none. -/
def MetadataToContext (ctx : List (String × String))
    (md : List (String × Option (List String))) : Option (List (String × String)) :=
  md.foldl
    (fun acc p =>
      acc.bind (fun c =>
        match p.2 with
        | none => some c
        | some [] => none
        | some (v0 :: _) => some ((p.1, v0) :: c)))
    (some ctx)

/-- Lookup of a context entry, innermost WithValue first. -/
def contextValue (ctx : List (String × String)) (k : String) : Option String :=
  (ctx.find? (fun p => p.1 = k)).map (fun p => p.2)

/-- C2: whenever an error exposes both the custom-status capability
(StatusCoder) and the grpc status abstraction, ErrorEncoder writes the HTTP
status mapped from the grpc code by the StatusCode table, not the custom
status: the assignment in the status-error branch overwrites the StatusCoder
assignment made earlier. -/
theorem c2_status_error_overrides_custom_status (e : GoErr) (sc : Int) (st : GrpcStatus)
    (h1 : e.statusCoder = some sc) (h2 : e.grpcStatus = some st) :
    (ErrorEncoder e).status = httpStatusFromCode st.code := by
  obtain ⟨msg, hdr, s, gs, jm⟩ := e
  simp only at h1 h2
  subst h1 h2
  rfl

/-- Witness for C2: with a custom status of 418 and a grpc status of code 5
(NotFound), the encoder writes the mapped status, 404. -/
theorem c2_witness :
    (ErrorEncoder ⟨"boom", none, some 418, some ⟨5, "nf", []⟩, none⟩).status =
      httpStatusFromCode 5 :=
  c2_status_error_overrides_custom_status _ 418 ⟨5, "nf", []⟩ rfl rfl

/-- C3: ErrorEncoder is a total function into Response (the model never
needs an Option result, mirroring that every marshal error in the source is
discarded with a blank identifier), and each internal marshaling failure
degrades to an empty body: a failing first detail payload in the grpc
branch, and a failing MarshalJSON in the marshaler branch, both leave the
body empty while a response is still produced. -/
theorem c3_never_fails_marshal_errors_swallowed (e : GoErr) :
    (∃ r : Response, ErrorEncoder e = r) ∧
    (∀ st rest, e.grpcStatus = some st → st.details = ProtoDetail.mk none :: rest →
      (ErrorEncoder e).body = "") ∧
    (e.grpcStatus = none → e.jsonMarshaler = some none → (ErrorEncoder e).body = "") := by
  refine ⟨⟨ErrorEncoder e, rfl⟩, ?_, ?_⟩
  · intro st rest h1 h2
    obtain ⟨msg, hdr, s, gs, jm⟩ := e
    simp only at h1
    subst h1
    obtain ⟨c, m, ds⟩ := st
    simp only at h2
    subst h2
    rfl
  · intro h1 h2
    obtain ⟨msg, hdr, s, gs, jm⟩ := e
    simp only at h1 h2
    subst h1 h2
    rfl

/-- Witness for C3 at a concrete error whose MarshalJSON fails: the body is
empty. -/
theorem c3_witness :
    (ErrorEncoder ⟨"x", none, none, none, some none⟩).body = "" :=
  (c3_never_fails_marshal_errors_swallowed ⟨"x", none, none, none, some none⟩).2.2 rfl rfl

/-- C4 evaluation at the failing input: a non-nil empty value list passes
the nil guard of MetadataToContext and the indexing of its first element
panics (modelled as none), so the claim's example mapping with a non-nil
empty list for empty-key does not produce a context at all; with a nil
value list for empty-key the loop behaves as the claim describes, keeping
only the first value of user-id and skipping empty-key. -/
theorem c4_nonnil_empty_list_panics :
    MetadataToContext [] [("user-id", some ["42"]), ("empty-key", some [])] = none ∧
    MetadataToContext [] [("user-id", some ["42", "43"]), ("empty-key", none)] =
      some [("user-id", "42")] :=
  ⟨rfl, rfl⟩

/-- C5: for an error recognized as a grpc status with at least one detail
payload whose protojson marshaling (UseProtoNames) succeeds with output j,
the body written by ErrorEncoder is exactly j, whatever the status message
and the error's own Error() string are. -/
theorem c5_first_detail_marshaled_verbatim (e : GoErr) (st : GrpcStatus) (d : ProtoDetail)
    (rest : List ProtoDetail) (j : String)
    (h1 : e.grpcStatus = some st) (h2 : st.details = d :: rest)
    (h3 : d.marshalProtoNames = some j) :
    (ErrorEncoder e).body = j := by
  obtain ⟨msg, hdr, s, gs, jm⟩ := e
  simp only at h1
  subst h1
  obtain ⟨c, m, ds⟩ := st
  simp only at h2
  subst h2
  obtain ⟨mp⟩ := d
  simp only at h3
  subst h3
  rfl

/-- Witness for C5: a grpc status with message ignored and one detail
payload marshaling to a concrete object yields that object as the body. -/
theorem c5_witness :
    (ErrorEncoder ⟨"outer", none, none,
      some ⟨3, "some message", [⟨some "\x7b\"field_name\":1\x7d"⟩]⟩, none⟩).body =
      "\x7b\"field_name\":1\x7d" :=
  c5_first_detail_marshaled_verbatim _ ⟨3, "some message", [⟨some "\x7b\"field_name\":1\x7d"⟩]⟩
    ⟨some "\x7b\"field_name\":1\x7d"⟩ [] "\x7b\"field_name\":1\x7d" rfl rfl rfl

/-- Replacing the entries of one canonical key leaves lookups of any other
canonical key unchanged. -/
lemma find?_map_replace (hs : List (String × String)) (ck cq v : String)
    (h : ck ≠ cq) :
    (hs.map (fun p => if p.1 = ck then (ck, v) else p)).find? (fun p => p.1 = cq) =
      hs.find? (fun p => p.1 = cq) := by
  induction hs with
  | nil => rfl
  | cons a t ih =>
    simp only [List.map_cons]
    by_cases ha : a.1 = ck
    · rw [if_pos ha, List.find?_cons_of_neg _ (by simp [h]),
        List.find?_cons_of_neg _ (by simp [ha, h])]
      exact ih
    · rw [if_neg ha]
      by_cases hq : a.1 = cq
      · rw [List.find?_cons_of_pos _ (by simp [hq]), List.find?_cons_of_pos _ (by simp [hq])]
      · rw [List.find?_cons_of_neg _ (by simp [hq]), List.find?_cons_of_neg _ (by simp [hq])]
        exact ih

/-- Setting a header whose canonical key differs from the canonical key
being read leaves the read unchanged. -/
lemma headerGet_headerSet_of_ne (hs : List (String × String)) (k v q : String)
    (h : canonicalMIMEHeaderKey k ≠ canonicalMIMEHeaderKey q) :
    headerGet (headerSet hs k v) q = headerGet hs q := by
  unfold headerGet headerSet
  by_cases hany : hs.any (fun p => p.1 = canonicalMIMEHeaderKey k)
  · rw [if_pos hany, find?_map_replace hs _ _ v h]
  · rw [if_neg hany, List.find?_append]
    rw [show List.find? (fun p => decide (p.1 = canonicalMIMEHeaderKey q))
        [(canonicalMIMEHeaderKey k, v)] = none from
      List.find?_eq_none.mpr (by simp [h])]
    cases List.find? (fun p => decide (p.1 = canonicalMIMEHeaderKey q)) hs <;> rfl

/-- Folding the Headerer copy loop over keys that all canonicalize away
from the key being read leaves the read unchanged. -/
lemma headerGet_foldl_of_ne (hm src : List (String × List String))
    (hs : List (String × String)) (q : String)
    (h : ∀ p ∈ hm, canonicalMIMEHeaderKey p.1 ≠ canonicalMIMEHeaderKey q) :
    headerGet (hm.foldl (fun r p => headerSet r p.1 (errHeadersGet src p.1)) hs) q =
      headerGet hs q := by
  induction hm generalizing hs with
  | nil => rfl
  | cons a t ih =>
    rw [List.foldl_cons, ih _ (fun p hp => h p (List.mem_cons_of_mem a hp)),
      headerGet_headerSet_of_ne _ _ _ _ (h a (List.mem_cons_self a t))]

/-- The headers of the encoder's response do not depend on the branch that
chose the status and the body: they are the Content-Type entry followed by
the Headerer copy loop. -/
lemma ErrorEncoder_headers (e : GoErr) :
    (ErrorEncoder e).headers =
      (match e.headerer with
       | some hm =>
         hm.foldl (fun r p => headerSet r p.1 (errHeadersGet hm p.1))
           (headerSet [] "Content-Type" JSONContentType)
       | none => headerSet [] "Content-Type" JSONContentType) := by
  obtain ⟨msg, hdr, s, gs, jm⟩ := e
  cases gs <;> cases jm <;> rfl

/-- C6 counterexample: the claim that the Content-Type header is always the
fixed JSON content type fails for an error whose Headerer capability itself
carries a Content-Type entry: the copy loop runs after the unconditional
Set and overwrites it. -/
theorem c6_counterexample :
    headerGet (ErrorEncoder
      ⟨"x", some [("Content-Type", ["text/plain"])], none, none, none⟩).headers
        "Content-Type" = some "text/plain" ∧
    some "text/plain" ≠ some JSONContentType := by
  constructor
  · rfl
  · intro hcontra
    simp only [Option.some.injEq] at hcontra
    exact absurd hcontra (by decide)

/-- C6 as amended: the response carries the Content-Type value
application/json; charset=utf-8 on every status and body path, provided no
key of the error's Headerer capability canonicalizes to Content-Type; a
Headerer key canonicalizing to Content-Type overwrites the value instead. -/
theorem c6_content_type_unless_headerer_overrides (e : GoErr)
    (h : ∀ hm, e.headerer = some hm →
      ∀ p ∈ hm, canonicalMIMEHeaderKey p.1 ≠ "Content-Type") :
    headerGet (ErrorEncoder e).headers "Content-Type" = some JSONContentType := by
  rw [ErrorEncoder_headers]
  cases hh : e.headerer with
  | none => rfl
  | some hm =>
    have hc : canonicalMIMEHeaderKey "Content-Type" = "Content-Type" := rfl
    rw [headerGet_foldl_of_ne hm hm _ "Content-Type"
      (fun p hp => by rw [hc]; exact h hm hh p hp)]
    rfl

/-- Witness for amended C6: an error carrying only an unrelated X-Test
header keeps the JSON content type. -/
theorem c6_witness :
    headerGet (ErrorEncoder
      ⟨"x", some [("X-Test", ["v1"])], none, none, none⟩).headers "Content-Type" =
      some JSONContentType :=
  c6_content_type_unless_headerer_overrides
    ⟨"x", some [("X-Test", ["v1"])], none, none, none⟩
    (by
      intro hm hhm p hp
      simp only [Option.some.injEq] at hhm
      subst hhm
      simp only [List.mem_singleton] at hp
      subst hp
      decide)

/-- C7: an error with none of the three body-or-status capabilities (no
grpc status, no StatusCoder, no json.Marshaler) is encoded with status 500
and the default wrapper body, the JSON object with the single member
message holding the error's Error() string. -/
theorem c7_default_path (e : GoErr)
    (h1 : e.grpcStatus = none) (h2 : e.statusCoder = none) (h3 : e.jsonMarshaler = none) :
    (ErrorEncoder e).status = 500 ∧
    (ErrorEncoder e).body = jsonMarshalErrorWrapper e.errMsg := by
  obtain ⟨msg, hdr, s, gs, jm⟩ := e
  simp only at h1 h2 h3
  subst h1 h2 h3
  exact ⟨rfl, rfl⟩

/-- Witness for C7 at a concrete capability-free error. -/
theorem c7_witness :
    (ErrorEncoder ⟨"boom", none, none, none, none⟩).status = 500 ∧
    (ErrorEncoder ⟨"boom", none, none, none, none⟩).body =
      jsonMarshalErrorWrapper "boom" :=
  c7_default_path ⟨"boom", none, none, none, none⟩ rfl rfl rfl

/-- C8: an error with the StatusCoder capability but no grpc status is
encoded with exactly the custom status; its body comes from MarshalJSON
when the json.Marshaler capability is present (empty on failure), and from
the default message wrapper otherwise. -/
theorem c8_custom_status_kept (e : GoErr) (s : Int)
    (h1 : e.statusCoder = some s) (h2 : e.grpcStatus = none) :
    (ErrorEncoder e).status = s ∧
    (∀ res, e.jsonMarshaler = some res → (ErrorEncoder e).body = res.getD "") ∧
    (e.jsonMarshaler = none → (ErrorEncoder e).body = jsonMarshalErrorWrapper e.errMsg) := by
  obtain ⟨msg, hdr, sc, gs, jm⟩ := e
  simp only at h1 h2
  subst h1 h2
  refine ⟨?_, ?_, ?_⟩
  · cases jm with
    | none => rfl
    | some res => cases res <;> rfl
  · intro res h
    simp only at h
    subst h
    cases res <;> rfl
  · intro h
    simp only at h
    subst h
    rfl

/-- Witness for C8: a concrete error with custom status 402 and a
successful MarshalJSON yields status 402 and the marshaled body. -/
theorem c8_witness :
    (ErrorEncoder ⟨"pay", none, some 402, none, some (some "\x7b\"a\":2\x7d")⟩).status = 402 ∧
    (ErrorEncoder ⟨"pay", none, some 402, none, some (some "\x7b\"a\":2\x7d")⟩).body =
      (some "\x7b\"a\":2\x7d").getD "" :=
  ⟨(c8_custom_status_kept _ 402 rfl rfl).1,
   (c8_custom_status_kept _ 402 rfl rfl).2.1 (some "\x7b\"a\":2\x7d") rfl⟩

/-- C9: NewHttpError accepts every integer status without validation (it is
total over Int), the constructed value's StatusCode method returns that
integer unchanged, and its Error method is the fixed placeholder string,
independent of the payload and the headers (nil headers included, modelled
as the empty list). -/
theorem c9_NewHttpError_unvalidated_fixed_message (s : Int) (p p2 : Option String)
    (hd hd2 : List (String × List String)) :
    (NewHttpError s p hd).StatusCode = s ∧
    (NewHttpError s p hd).Error = "HttpError" ∧
    (NewHttpError s p hd).Error = (NewHttpError s p2 hd2).Error :=
  ⟨rfl, rfl, rfl⟩

/-- C10: ErrorEncoder is extensionally equal to the simplified variant
whose final default branch only marshals the message wrapper: the nested
json.Marshaler re-check is unreachable because that branch is entered only
when the json.Marshaler assertion has already failed. -/
theorem c10_inner_marshaler_recheck_redundant :
    ∀ e : GoErr, ErrorEncoder e = ErrorEncoderSimplified e := by
  intro e
  obtain ⟨msg, hdr, s, gs, jm⟩ := e
  cases gs <;> cases jm <;> rfl

end GoGenproto
